import Mathlib

/-! Spatiotemporal filters: reslicing, reconstruction, 9-tap and Gabor energy.

A shallow embedding of `Spatiotemporal_Filters/main.cpp`.

* `cv::Mat` is a record of a column count and a list of rows; `rows` is the
  length of that list.  The element type is a parameter: the reslicing code only
  moves samples, the filters work on rationals (floating point idealised as
  exact arithmetic).
* The OpenCV calls (`Mat::row`, `Mat::col`, `Mat::push_back`, `transpose`,
  `sepFilter2D`, `filter2D`, `pow`, `normalize`, `convertTo`) follow the
  behaviour of the library; each definition says which.
* A `cv::Exception` raised by an OpenCV assertion is `Except.error`.
* The loops of the source are structural recursions over the frame list and
  over `List.range n`.
-/

set_option autoImplicit false

namespace SpatiotemporalFilters

/-- Failures of the embedded code. -/
inductive CvError where
  /-- `CV_Assert` in the sub-matrix constructor behind `Mat::row` / `Mat::col`:
  the requested range is not inside the matrix. -/
  | badRange
  /-- `CV_StsUnmatchedSizes` of `Mat::push_back`: "Pushed vector length is not
  equal to matrix row length". -/
  | unmatchedSizes
  /-- `CV_Assert(depth == CV_32F || depth == CV_64F)` of `cv::pow` with a
  non-integer power. -/
  | badDepth
  /-- `CV_Assert` of the filter engine on an image without samples. -/
  | emptyImage
  /-- Not a failure the program reports: the mark of `v[0]` on an empty
  `std::vector`, for which C++ defines no behaviour.  Nothing is stated about
  a run that reaches it. -/
  | undefinedBehaviour
  deriving DecidableEq

/-- The matrix `cv::Mat` (two-dimensional, one channel): `cols` and the list of
rows.  `rows` is the number of rows stored. -/
structure Mat (α : Type) where
  cols : Nat
  data : List (List α)
  deriving DecidableEq

namespace Mat

variable {α : Type}

/-- The field `Mat::rows`. -/
def rows (m : Mat α) : Nat := m.data.length

/-- The default-constructed `cv::Mat()`: 0 x 0, no data. -/
def empty : Mat α := ⟨0, []⟩

/-- The test `Mat::empty()`, which for the matrices built here is also `!data`:
no sample is stored. -/
def isEmpty (m : Mat α) : Bool := m.rows == 0 || m.cols == 0

/-- Every stored row has `cols` samples. -/
def WF (m : Mat α) : Prop := ∀ r ∈ m.data, r.length = m.cols

instance (m : Mat α) : Decidable m.WF := by
  unfold WF; infer_instance

/-- The sample at row `r`, column `c`, when inside the matrix. -/
def at? (m : Mat α) (r c : Nat) : Option α := m.data[r]?.bind (fun row => row[c]?)

/-- The header `Mat::row(y)` = `Mat(*this, Range(y, y+1), Range::all())`; the
constructor asserts `y + 1 <= rows`. -/
def row (m : Mat α) (y : Nat) : Except CvError (Mat α) :=
  match m.data[y]? with
  | none => .error .badRange
  | some r => .ok ⟨m.cols, [r]⟩

/-- The header `Mat::col(x)` = `Mat(*this, Range::all(), Range(x, x+1))`; the
constructor asserts `x + 1 <= cols`.  Every row is cut to the columns
`[x, x+1)`. -/
def col (m : Mat α) (x : Nat) : Except CvError (Mat α) :=
  if x < m.cols then .ok ⟨1, m.data.map (fun r => (r.drop x).take 1)⟩
  else .error .badRange

/-- The copy `Mat::clone()`; `copyTo` of a matrix without samples releases the
destination, so the copy is `Mat()`. -/
def clone (m : Mat α) : Mat α := if m.isEmpty then empty else m

/-- The function `cv::transpose(src, dst)`: a source without samples releases
`dst`; otherwise `dst` is `cols x rows` with `dst(c, r) = src(r, c)`. -/
def transpose (m : Mat α) : Mat α :=
  if m.isEmpty then empty
  else ⟨m.rows, (List.range m.cols).map (fun c => m.data.filterMap (fun r => r[c]?))⟩

/-- The method `Mat::push_back(const Mat& elems)`:
nothing happens when `elems` has no rows; a matrix without data becomes a clone
of `elems`; otherwise the row lengths must agree (`CV_StsUnmatchedSizes`) and
the rows of `elems` are appended.  The element types always agree here. -/
def push_back (self elems : Mat α) : Except CvError (Mat α) :=
  if elems.rows = 0 then .ok self
  else if self.isEmpty then .ok elems.clone
  else if self.cols ≠ elems.cols then .error .unmatchedSizes
  else .ok ⟨self.cols, self.data ++ elems.data⟩

end Mat

variable {α : Type}

/-- The loop `for (y = 0; y < n; ++y) { ...; out.push_back(body y); }`, run over
`ys = List.range n`: the first failing iteration aborts the whole loop. -/
def forEachIndex {β : Type} (body : Nat → Except CvError β) : List Nat → Except CvError (List β)
  | [] => .ok []
  | y :: ys =>
    match body y with
    | .error e => .error e
    | .ok b =>
      match forEachIndex body ys with
      | .error e => .error e
      | .ok bs => .ok (b :: bs)

/-- The inner loop of `convert_to_over_Y` and of the reconstruction in `main`:
`for (const auto& fr : frames) tmp.push_back(fr.row(y));`. -/
def pushRows (y : Nat) : List (Mat α) → Mat α → Except CvError (Mat α)
  | [], tmp => .ok tmp
  | fr :: rest, tmp =>
    match fr.row y with
    | .error e => .error e
    | .ok r =>
      match tmp.push_back r with
      | .error e => .error e
      | .ok tmp' => pushRows y rest tmp'

/-- The inner loop of `convert_to_over_X`:
`for (const auto& fr : frames) { transpose(fr.col(x), t1); tmp.push_back(t1); }`. -/
def pushCols (x : Nat) : List (Mat α) → Mat α → Except CvError (Mat α)
  | [], tmp => .ok tmp
  | fr :: rest, tmp =>
    match fr.col x with
    | .error e => .error e
    | .ok c =>
      match tmp.push_back c.transpose with
      | .error e => .error e
      | .ok tmp' => pushCols x rest tmp'

/-- The function `convert_to_over_X` (main.cpp 33-48).  `spatio_temporal[0]` is
read unchecked; on an empty vector C++ defines no behaviour, which the first
branch only marks.  The transpose of
`tmp` into the local `t1` after the inner loop is never used: `tmp` itself is
pushed. -/
def convert_to_over_X (spatio_temporal : List (Mat α)) : Except CvError (List (Mat α)) :=
  match spatio_temporal with
  | [] => .error .undefinedBehaviour
  | f0 :: _ =>
    let x_size := f0.cols
    forEachIndex (fun x => pushCols x spatio_temporal Mat.empty) (List.range x_size)

/-- The function `convert_to_over_Y` (main.cpp 50-62).  `spatio_temporal[0]` is
read unchecked; the first branch only marks the undefined read on an empty
vector. -/
def convert_to_over_Y (spatio_temporal : List (Mat α)) : Except CvError (List (Mat α)) :=
  match spatio_temporal with
  | [] => .error .undefinedBehaviour
  | f0 :: _ =>
    let y_size := f0.rows
    forEachIndex (fun y => pushRows y spatio_temporal Mat.empty) (List.range y_size)

/-- The reconstruction loop of `main` (main.cpp 159-166 and 172-179): output
image `y` stacks row `y` of every image of `video`, in order; the bound is
`video[0].rows`, read unchecked (the first branch only marks the undefined read
on an empty vector). -/
def back_to_xy (video : List (Mat α)) : Except CvError (List (Mat α)) :=
  match video with
  | [] => .error .undefinedBehaviour
  | v0 :: _ =>
    forEachIndex (fun y => pushRows y video Mat.empty) (List.range v0.rows)

/-- All frames have shape `H x W` and store `H` rows of `W` samples. -/
def Uniform (V : List (Mat α)) (H W : Nat) : Prop :=
  ∀ f ∈ V, f.rows = H ∧ f.cols = W ∧ f.WF

instance (V : List (Mat α)) (H W : Nat) : Decidable (Uniform V H W) := by
  unfold Uniform; infer_instance

/-- The scenario volume of two 2 x 2 frames, all 0 and all 255. -/
def blackWhiteVolume : List (Mat Nat) := [⟨2, [[0, 0], [0, 0]]⟩, ⟨2, [[255, 255], [255, 255]]⟩]

/-- A volume of two 2 x 3 frames with pairwise different samples. -/
def rampVolume : List (Mat Nat) := [⟨3, [[1, 2, 3], [4, 5, 6]]⟩, ⟨3, [[7, 8, 9], [10, 11, 12]]⟩]

/-- The scenario volume of three 4 x 4 frames with every sample 128. -/
def grayVolume : List (Mat Nat) := List.replicate 3 ⟨4, List.replicate 4 (List.replicate 4 128)⟩

/-- Slit `y` of the Y-reslice: row `y` of every frame, in frame order. -/
def slitY (V : List (Mat α)) (W y : Nat) : Mat α := ⟨W, V.filterMap (fun f => f.data[y]?)⟩

/-- Slit `x` of the X-reslice: column `x` of every frame, as a row, in frame order. -/
def slitX (V : List (Mat α)) (H x : Nat) : Mat α :=
  ⟨H, V.map (fun f => f.data.filterMap (fun r => r[x]?))⟩

/-- A 1 x 1 frame followed by a 2 x 1 frame: the second frame has more rows. -/
def tallSecondVolume : List (Mat Nat) := [⟨1, [[1]]⟩, ⟨1, [[2], [3]]⟩]

/-- A 1 x 1 frame followed by a 1 x 2 frame: the second frame has more columns. -/
def wideSecondVolume : List (Mat Nat) := [⟨1, [[1]]⟩, ⟨2, [[2, 3]]⟩]

/-! ## Filters

Floating-point samples are rationals and every operation is exact. -/

namespace Mat

/-- Apply `f` to every sample. -/
def map {α β : Type} (f : α → β) (m : Mat α) : Mat β := ⟨m.cols, m.data.map (fun r => r.map f)⟩

/-- All samples, row after row. -/
def samples {α : Type} (m : Mat α) : List α := m.data.flatten

end Mat

/-- The index `cv::borderInterpolate(p, len, BORDER_REFLECT_101)` read for
position `p` of an axis of `len` samples (`gfedcb|abcdefgh|gfedcba`): inside the
axis it is `p`, outside it is mirrored about the first and the last sample,
which are not repeated; an axis of one sample always gives 0.
`BORDER_REFLECT_101` is `BORDER_DEFAULT`, the border mode of `sepFilter2D` and
`filter2D` when none is passed. -/
def borderInterpolate (p : Int) (len : Nat) : Nat :=
  if len ≤ 1 then 0
  else
    let period : Int := 2 * ((len : Int) - 1)
    let q := p % period
    if q < len then q.toNat else (period - q).toNat

/-- The sample of `src` read for position `(y, x)`, border included. -/
def sampleAt (src : Mat ℚ) (y x : Int) : ℚ :=
  (src.data.getD (borderInterpolate y src.rows) []).getD (borderInterpolate x src.cols) 0

/-- The sum `k[0] * f 0 + k[1] * f 1 + ...` over the taps of `k`. -/
def weightedSum (k : List ℚ) (f : Nat → ℚ) : ℚ :=
  (List.zipWith (fun c i => c * f i) k (List.range k.length)).sum

/-- The anchor `(-1, -1)` stands for the kernel centre, `ksize / 2`. -/
def anchorOf (ksize : Nat) : Int := ((ksize / 2 : Nat) : Int)

/-- One sample of `cv::sepFilter2D(src, dst, CV_32F, kernelX, kernelY)`: the row
filter `kernelX` runs along the row, the column filter `kernelY` along the
column, both as correlations about the kernel centre:
`dst(y, x) = sum_j sum_i kernelY[j] * kernelX[i] * src(y + j - ay, x + i - ax)`. -/
def sepFilter2D_at (src : Mat ℚ) (kernelX kernelY : List ℚ) (y x : Nat) : ℚ :=
  weightedSum kernelY (fun j =>
    weightedSum kernelX (fun i =>
      sampleAt src ((y : Int) + j - anchorOf kernelY.length) ((x : Int) + i - anchorOf kernelX.length)))

/-- The image with `rows x cols` samples `f y x`. -/
def tabulate (rows cols : Nat) (f : Nat → Nat → ℚ) : Mat ℚ :=
  ⟨cols, (List.range rows).map (fun y => (List.range cols).map (fun x => f y x))⟩

/-- The function `cv::sepFilter2D` with the default anchor, delta and border: the
destination has the size of the source.  An image without samples is refused. -/
def sepFilter2D (src : Mat ℚ) (kernelX kernelY : List ℚ) : Except CvError (Mat ℚ) :=
  if src.isEmpty then .error .emptyImage
  else .ok (tabulate src.rows src.cols (sepFilter2D_at src kernelX kernelY))

/-- One sample of the separable 2-D convolution of `src` with the row kernel
`kernelX` and the column kernel `kernelY`, centred like the filter and with the
same border: each kernel is index-reversed against the image,
`dst(y, x) = sum_j sum_i kernelY[j] * kernelX[i] * src(y - (j - ay), x - (i - ax))`. -/
def sepConv2D_at (src : Mat ℚ) (kernelX kernelY : List ℚ) (y x : Nat) : ℚ :=
  weightedSum kernelY (fun j =>
    weightedSum kernelX (fun i =>
      sampleAt src ((y : Int) - (j - anchorOf kernelY.length)) ((x : Int) - (i - anchorOf kernelX.length))))

/-- The separable 2-D convolution proper (row kernel, then column kernel). -/
def sepConv2D (src : Mat ℚ) (kernelX kernelY : List ℚ) : Except CvError (Mat ℚ) :=
  if src.isEmpty then .error .emptyImage
  else .ok (tabulate src.rows src.cols (sepConv2D_at src kernelX kernelY))

/-- One sample of `cv::filter2D(src, dst, CV_32F, kernel, Point(-1,-1))`, a
correlation about the kernel centre:
`dst(y, x) = sum_j sum_i kernel(j, i) * src(y + j - ay, x + i - ax)`. -/
def filter2D_at (src kernel : Mat ℚ) (y x : Nat) : ℚ :=
  ((List.zipWith (fun krow j =>
      weightedSum krow (fun i =>
        sampleAt src ((y : Int) + j - anchorOf kernel.rows) ((x : Int) + i - anchorOf kernel.cols)))
    kernel.data (List.range kernel.rows))).sum

/-- The function `cv::filter2D` with the default delta and border.  No size of
the kernel is compared with the size of the image: outside the image the border
is read.  An image or a kernel without samples is refused. -/
def filter2D (src kernel : Mat ℚ) : Except CvError (Mat ℚ) :=
  if src.isEmpty || kernel.isEmpty then .error .emptyImage
  else .ok (tabulate src.rows src.cols (filter2D_at src kernel))

/-- The smallest sample (`smin` of `cv::minMaxIdx`); 0 without samples. -/
def matMin (m : Mat ℚ) : ℚ :=
  match m.samples with
  | [] => 0
  | v :: vs => vs.foldl min v

/-- The largest sample (`smax` of `cv::minMaxIdx`); 0 without samples. -/
def matMax (m : Mat ℚ) : ℚ :=
  match m.samples with
  | [] => 0
  | v :: vs => vs.foldl max v

/-- The constant `DBL_EPSILON` = 2^-52. -/
def DBL_EPSILON : ℚ := 1 / 2 ^ 52

/-- The factor of `cv::normalize(src, dst, 0, 255.0, NORM_MINMAX)`:
`scale = (dmax - dmin) * (smax - smin > DBL_EPSILON ? 1. / (smax - smin) : 0)`
with `dmin = 0`, `dmax = 255`. -/
def normalizeScale (src : Mat ℚ) : ℚ :=
  (255 - 0) * (if matMax src - matMin src > DBL_EPSILON then 1 / (matMax src - matMin src) else 0)

/-- The offset of the same call: `shift = dmin - smin * scale`. -/
def normalizeShift (src : Mat ℚ) : ℚ := 0 - matMin src * normalizeScale src

/-- The function `cv::normalize(src, dst, 0, 255.0, NORM_MINMAX)`:
`src.convertTo(dst, CV_32F, scale, shift)`, every sample `v` becomes
`v * scale + shift`.  The product and the sum are exact here and rounded to
`float` in the library; with scale 0 both give 0, with another scale they agree
only up to that rounding. -/
def normalize (src : Mat ℚ) : Mat ℚ :=
  src.map (fun v => v * normalizeScale src + normalizeShift src)

/-- The rounding `cvRound`: to the nearest integer, a tie to the even one. -/
def cvRound (v : ℚ) : Int :=
  let f := ⌊v⌋
  let r := v - f
  if r < 1 / 2 then f
  else if 1 / 2 < r then f + 1
  else if f % 2 = 0 then f else f + 1

/-- The cast `saturate_cast<uchar>`: rounded, then clamped to 0..255. -/
def saturate_cast_uchar (v : ℚ) : Nat :=
  let i := cvRound v
  if i < 0 then 0 else if 255 < i then 255 else i.toNat

/-- The conversion `m.convertTo(m, CV_8UC1)`. -/
def convertTo_8UC1 (m : Mat ℚ) : Mat Nat := m.map saturate_cast_uchar

/-- The spatial kernel `in_x` of `convolve_with_9_tap`. -/
def in_x : List ℚ := [0.0094, 0.1148, 0.3964, -0.0601, -0.9213, -0.0601, 0.3964, 0.1148, 0.0094]

/-- The temporal kernel `in_t` of `convolve_with_9_tap`. -/
def in_t : List ℚ := [0.0008, 0.0176, 0.1660, 0.6383, 1.0, 0.6383, 0.1660, 0.0176, 0.0008]

/-- The loop `for (auto x : stack) { ...; out.push_back(body x); }`: the first
failing iteration aborts the whole loop. -/
def forEachMat {β γ : Type} (body : β → Except CvError γ) : List β → Except CvError (List γ)
  | [] => .ok []
  | x :: xs =>
    match body x with
    | .error e => .error e
    | .ok b =>
      match forEachMat body xs with
      | .error e => .error e
      | .ok bs => .ok (b :: bs)

/-- The response of `convolve_with_9_tap` before squaring:
`sepFilter2D(frame, tmp, CV_32F, x_axis_filter, y_axis_filter)` with
`x_axis_filter = in_x` and `y_axis_filter = in_t`. -/
def nine_tap_response (frame : Mat ℚ) : Except CvError (Mat ℚ) := sepFilter2D frame in_x in_t

/-- The body of the loop of `convolve_with_9_tap` (main.cpp 83-90):
`sepFilter2D`, `pow(tmp, 2, tmp)`, `normalize`, `convertTo(CV_8UC1)`. -/
def nine_tap_frame (frame : Mat ℚ) : Except CvError (Mat Nat) :=
  match nine_tap_response frame with
  | .error e => .error e
  | .ok tmp =>
    let tmp := tmp.map (fun v => v * v)
    let tmp := normalize tmp
    .ok (convertTo_8UC1 tmp)

/-- The function `convolve_with_9_tap` (main.cpp 76-93). -/
def convolve_with_9_tap (over_y : List (Mat ℚ)) : Except CvError (List (Mat Nat)) :=
  forEachMat nine_tap_frame over_y

/-- The call `cv::add(a, b, a)` on two images of one size. -/
def matAdd (a b : Mat ℚ) : Mat ℚ :=
  ⟨a.cols, List.zipWith (fun ra rb => List.zipWith (fun u v => u + v) ra rb) a.data b.data⟩

/-- The loop over the kernel bank (main.cpp 102-114).  `gabor` is `none` while
it is the default-constructed `cv::Mat`, which has no samples and depth
`CV_8U`; kernel 0 assigns it, the later kernels add to it. -/
def gaborAccumulate (x : Mat ℚ) : List (Mat ℚ) → Option (Mat ℚ) → Except CvError (Option (Mat ℚ))
  | [], gabor => .ok gabor
  | kernel :: kernels, gabor =>
    match filter2D x kernel with
    | .error e => .error e
    | .ok tmp =>
      let tmp := tmp.map (fun v => v * v)
      match gabor with
      | none => gaborAccumulate x kernels (some tmp)
      | some g => gaborAccumulate x kernels (some (matAdd g tmp))

/-- The call `cv::pow(gabor, 0.5, gabor)`: the power is not an integer, so the
depth must be `CV_32F` or `CV_64F`, which the never-assigned `gabor` (depth
`CV_8U`) is not.  `fsqrt` is the floating-point square root. -/
def powHalf (fsqrt : ℚ → ℚ) : Option (Mat ℚ) → Except CvError (Mat ℚ)
  | none => .error .badDepth
  | some g => .ok (g.map fsqrt)

/-- The body of the loop over the slits of one volume (main.cpp 100-121). -/
def gabor_energy_slit (fsqrt : ℚ → ℚ) (conv_gab_kernel : List (Mat ℚ)) (x : Mat ℚ) :
    Except CvError (Mat Nat) :=
  match gaborAccumulate x conv_gab_kernel none with
  | .error e => .error e
  | .ok acc =>
    match powHalf fsqrt acc with
    | .error e => .error e
    | .ok gabor => .ok (convertTo_8UC1 (normalize gabor))

/-- The function `get_energy_of_gabor_in_spatio_temp` (main.cpp 95-127).  The
square root of floating point is the parameter `fsqrt`. -/
def get_energy_of_gabor_in_spatio_temp (fsqrt : ℚ → ℚ) (volumes : List (List (Mat ℚ)))
    (conv_gab_kernel : List (Mat ℚ)) : Except CvError (List (List (Mat Nat))) :=
  forEachMat (fun volume => forEachMat (gabor_energy_slit fsqrt conv_gab_kernel) volume) volumes

/-- The image of `rows x cols` samples that are all `v`. -/
def constMat {α : Type} (rows cols : Nat) (v : α) : Mat α :=
  ⟨cols, List.replicate rows (List.replicate cols v)⟩

/-- The scenario slit: shape (3, 4), every sample 128, as a floating-point image. -/
def graySlit : Mat ℚ := constMat 3 4 128

/-- A slit with at least one sample, rows of equal length, and all samples equal. -/
def ConstantSlit (frame : Mat ℚ) : Prop :=
  1 ≤ frame.rows ∧ 1 ≤ frame.cols ∧ frame.WF ∧ ∃ c, ∀ v ∈ frame.samples, v = c

/-- A 9 x 9 kernel, the size of the Gabor kernels of `get_conv_gabor_kernels`. -/
def boxKernel9 : Mat ℚ := constMat 9 9 1

/-- A square root on the rationals for concrete runs: `sqrt (n / d)` as the
integer square root of `n * d`, over `d`. -/
def ratSqrt (q : ℚ) : ℚ := (Nat.sqrt (q.num.toNat * q.den) : ℚ) / q.den

theorem forEachIndex_ok {β : Type} (body : Nat → Except CvError β) (g : Nat → β) :
    ∀ ys : List Nat, (∀ y ∈ ys, body y = .ok (g y)) → forEachIndex body ys = .ok (ys.map g)
  | [], _ => rfl
  | y :: ys, h => by
    have h1 := h y (List.mem_cons_self _ _)
    have h2 := forEachIndex_ok body g ys (fun z hz => h z (List.mem_cons_of_mem _ hz))
    simp [forEachIndex, h1, h2]

theorem forEachIndex_error {β : Type} (body : Nat → Except CvError β) :
    ∀ ys : List Nat, (∃ y ∈ ys, ∃ e, body y = .error e) → ∃ e, forEachIndex body ys = .error e
  | [], h => by simp at h
  | y :: ys, h => by
    cases hb : body y with
    | error e => exact ⟨e, by simp [forEachIndex, hb]⟩
    | ok b =>
      have h2 : ∃ z ∈ ys, ∃ e, body z = .error e := by
        obtain ⟨z, hz, e, he⟩ := h
        rcases List.mem_cons.1 hz with rfl | hz
        · rw [hb] at he; cases he
        · exact ⟨z, hz, e, he⟩
      obtain ⟨e, he⟩ := forEachIndex_error body ys h2
      exact ⟨e, by simp [forEachIndex, hb, he]⟩

theorem pushRows_ok (y : Nat) :
    ∀ (V : List (Mat α)) (tmp : Mat α), tmp.data ≠ [] → tmp.cols ≠ 0 →
      (∀ f ∈ V, f.cols = tmp.cols ∧ y < f.rows) →
      pushRows y V tmp = .ok ⟨tmp.cols, tmp.data ++ V.filterMap (fun f => f.data[y]?)⟩
  | [], tmp, _, _, _ => by simp [pushRows]
  | fr :: rest, tmp, hd, hc, h => by
    obtain ⟨h1, h2⟩ := h fr (List.mem_cons_self _ _)
    have hr : fr.data[y]? = some (fr.data.get ⟨y, h2⟩) := List.getElem?_eq_getElem h2
    have ih := pushRows_ok y rest ⟨tmp.cols, tmp.data ++ [fr.data.get ⟨y, h2⟩]⟩ (by simp) hc
      (fun f hf => h f (List.mem_cons_of_mem _ hf))
    have he : tmp.isEmpty = false := by
      cases hdd : tmp.data with
      | nil => exact absurd hdd hd
      | cons a l => simp [Mat.isEmpty, Mat.rows, hdd, hc]
    simp only [pushRows, Mat.row, hr, Mat.push_back, Mat.rows, List.length_singleton, he, h1]
    simp only [List.filterMap_cons, hr]
    simpa using ih

theorem pushRows_error (y : Nat) :
    ∀ (V : List (Mat α)) (tmp : Mat α), tmp.data ≠ [] → tmp.cols ≠ 0 →
      (∃ f ∈ V, f.cols ≠ tmp.cols ∨ f.rows ≤ y) →
      ∃ e, pushRows y V tmp = .error e
  | [], _, _, _, h => by simp at h
  | fr :: rest, tmp, hd, hc, h => by
    have he : tmp.isEmpty = false := by
      cases hdd : tmp.data with
      | nil => exact absurd hdd hd
      | cons a l => simp [Mat.isEmpty, Mat.rows, hdd, hc]
    cases hr : fr.data[y]? with
    | none => exact ⟨.badRange, by simp [pushRows, Mat.row, hr]⟩
    | some r =>
      by_cases hcol : tmp.cols = fr.cols
      · have h2 : ∃ f ∈ rest, f.cols ≠ tmp.cols ∨ f.rows ≤ y := by
          obtain ⟨f, hf, hbad⟩ := h
          rcases List.mem_cons.1 hf with rfl | hf
          · rcases hbad with hbad | hbad
            · exact absurd hcol.symm hbad
            · have := List.getElem?_eq_none hbad
              rw [hr] at this; cases this
          · exact ⟨f, hf, hbad⟩
        obtain ⟨e, hE⟩ := pushRows_error y rest ⟨tmp.cols, tmp.data ++ [r]⟩ (by simp) hc h2
        exact ⟨e, by simpa [pushRows, Mat.row, hr, Mat.push_back, Mat.rows, he, hcol] using hE⟩
      · exact ⟨.unmatchedSizes, by simp [pushRows, Mat.row, hr, Mat.push_back, Mat.rows, he, hcol]⟩


theorem isEmpty_eq_false {m : Mat α} (hd : m.data ≠ []) (hc : m.cols ≠ 0) : m.isEmpty = false := by
  cases hdd : m.data with
  | nil => exact absurd hdd hd
  | cons a l => simp [Mat.isEmpty, Mat.rows, hdd, hc]

theorem push_back_ok_shape {tmp elems tmp' : Mat α} (hd : tmp.data ≠ []) (hc : tmp.cols ≠ 0)
    (h : tmp.push_back elems = .ok tmp') : tmp'.data ≠ [] ∧ tmp'.cols = tmp.cols := by
  have he := isEmpty_eq_false hd hc
  unfold Mat.push_back at h
  rw [he] at h
  by_cases h0 : elems.rows = 0
  · simp [h0] at h; subst h; exact ⟨hd, rfl⟩
  · by_cases h1 : tmp.cols = elems.cols
    · simp [h0, h1] at h; subst h; simp [hd, h1]
    · simp [h0, h1] at h

theorem getElem?_take_one_drop (r : List α) (x : Nat) : ((r.drop x).take 1)[0]? = r[x]? := by
  simp [List.getElem?_take]

theorem transpose_col (fr : Mat α) (x : Nat) (h0 : fr.rows ≠ 0) :
    (⟨1, fr.data.map (fun r => (r.drop x).take 1)⟩ : Mat α).transpose
      = ⟨fr.rows, [fr.data.filterMap (fun r => r[x]?)]⟩ := by
  have hr : fr.data.length ≠ 0 := h0
  simp only [Mat.transpose, Mat.isEmpty, Mat.rows, List.length_map]
  simp [hr, List.filterMap_map, Function.comp_def, List.getElem?_take, List.range_succ]

theorem pushCols_ok (x : Nat) :
    ∀ (V : List (Mat α)) (tmp : Mat α), tmp.data ≠ [] → tmp.cols ≠ 0 →
      (∀ f ∈ V, x < f.cols ∧ f.rows = tmp.cols) →
      pushCols x V tmp
        = .ok ⟨tmp.cols, tmp.data ++ V.map (fun f => f.data.filterMap (fun r => r[x]?))⟩
  | [], tmp, _, _, _ => by simp [pushCols]
  | fr :: rest, tmp, hd, hc, h => by
    obtain ⟨h1, h2⟩ := h fr (List.mem_cons_self _ _)
    have ih := pushCols_ok x rest ⟨tmp.cols, tmp.data ++ [fr.data.filterMap (fun r => r[x]?)]⟩
      (by simp) hc (fun f hf => h f (List.mem_cons_of_mem _ hf))
    have he := isEmpty_eq_false hd hc
    have h0 : fr.rows ≠ 0 := by rw [h2]; exact hc
    simp only [pushCols, Mat.col, h1, if_true, transpose_col fr x h0, Mat.push_back, Mat.rows,
      List.length_singleton, he]
    simpa [← h2, Mat.rows] using ih

theorem pushCols_error (x : Nat) :
    ∀ (V : List (Mat α)) (tmp : Mat α), tmp.data ≠ [] → tmp.cols ≠ 0 →
      (∃ f ∈ V, f.cols ≤ x ∨ (f.rows ≠ 0 ∧ f.rows ≠ tmp.cols)) →
      ∃ e, pushCols x V tmp = .error e
  | [], _, _, _, h => by simp at h
  | fr :: rest, tmp, hd, hc, h => by
    have he := isEmpty_eq_false hd hc
    by_cases hx : x < fr.cols
    · cases hp : tmp.push_back (⟨1, fr.data.map (fun r => (r.drop x).take 1)⟩ : Mat α).transpose with
      | error e => exact ⟨e, by simp [pushCols, Mat.col, hx, hp]⟩
      | ok tmp' =>
        obtain ⟨hd', hc'⟩ := push_back_ok_shape hd hc hp
        have h2 : ∃ f ∈ rest, f.cols ≤ x ∨ (f.rows ≠ 0 ∧ f.rows ≠ tmp'.cols) := by
          obtain ⟨f, hf, hbad⟩ := h
          rcases List.mem_cons.1 hf with rfl | hf
          · rcases hbad with hbad | ⟨hb0, hb1⟩
            · omega
            · exfalso
              rw [transpose_col f x hb0] at hp
              have hb2 : ¬ tmp.cols = f.data.length := fun h => hb1 h.symm
              simp [Mat.push_back, Mat.rows, he, hb2] at hp
          · exact ⟨f, hf, by rw [hc']; exact hbad⟩
        obtain ⟨e, hE⟩ := pushCols_error x rest tmp' hd' (by rw [hc']; exact hc) h2
        exact ⟨e, by simp [pushCols, Mat.col, hx, hp, hE]⟩
    · exact ⟨.badRange, by simp [pushCols, Mat.col, hx]⟩

theorem pushRows_first (y : Nat) (f0 : Mat α) (rest : List (Mat α)) (r : List α)
    (hc : f0.cols ≠ 0) (hr : f0.data[y]? = some r) :
    pushRows y (f0 :: rest) Mat.empty = pushRows y rest ⟨f0.cols, [r]⟩ := by
  simp [pushRows, Mat.row, hr, Mat.push_back, Mat.rows, Mat.isEmpty, Mat.empty, Mat.clone, hc]

theorem pushCols_first (x : Nat) (f0 : Mat α) (rest : List (Mat α))
    (hx : x < f0.cols) (h0 : f0.rows ≠ 0) :
    pushCols x (f0 :: rest) Mat.empty
      = pushCols x rest ⟨f0.rows, [f0.data.filterMap (fun r => r[x]?)]⟩ := by
  have h1 : f0.data.length ≠ 0 := h0
  simp only [pushCols, Mat.col, hx, if_true, transpose_col f0 x h0]
  simp [Mat.push_back, Mat.rows, Mat.isEmpty, Mat.empty, Mat.clone, h1]


/-! ## Closed forms of the two reslices -/

theorem convert_to_over_Y_ok (f0 : Mat α) (rest : List (Mat α)) (hc : f0.cols ≠ 0)
    (h : ∀ f ∈ rest, f.cols = f0.cols ∧ f0.rows ≤ f.rows) :
    convert_to_over_Y (f0 :: rest)
      = .ok ((List.range f0.rows).map (slitY (f0 :: rest) f0.cols)) := by
  unfold convert_to_over_Y
  apply forEachIndex_ok
  intro y hy
  have hy' : y < f0.data.length := List.mem_range.1 hy
  have hr : f0.data[y]? = some (f0.data.get ⟨y, hy'⟩) := List.getElem?_eq_getElem hy'
  rw [pushRows_first y f0 rest _ hc hr,
    pushRows_ok y rest ⟨f0.cols, [f0.data.get ⟨y, hy'⟩]⟩ (by simp) hc
      (fun f hf => ⟨(h f hf).1, lt_of_lt_of_le hy' (h f hf).2⟩)]
  simp [slitY, hr]

theorem convert_to_over_Y_error (f0 : Mat α) (rest : List (Mat α)) (hc : f0.cols ≠ 0)
    (hr0 : f0.rows ≠ 0) (h : ∃ f ∈ rest, f.cols ≠ f0.cols ∨ f.rows < f0.rows) :
    ∃ e, convert_to_over_Y (f0 :: rest) = .error e := by
  unfold convert_to_over_Y
  apply forEachIndex_error
  obtain ⟨f, hf, hbad⟩ := h
  have key : ∀ y, y < f0.rows → (f.cols ≠ f0.cols ∨ f.rows ≤ y) →
      ∃ e, pushRows y (f0 :: rest) Mat.empty = .error e := by
    intro y hy hb
    have hrr : f0.data[y]? = some (f0.data.get ⟨y, hy⟩) := List.getElem?_eq_getElem hy
    rw [pushRows_first y f0 rest _ hc hrr]
    exact pushRows_error y rest _ (by simp) hc ⟨f, hf, hb⟩
  rcases hbad with hb | hb
  · exact ⟨0, List.mem_range.2 (Nat.pos_of_ne_zero hr0), key 0 (Nat.pos_of_ne_zero hr0) (Or.inl hb)⟩
  · exact ⟨f.rows, List.mem_range.2 hb, key f.rows hb (Or.inr le_rfl)⟩

theorem convert_to_over_X_ok (f0 : Mat α) (rest : List (Mat α)) (hr0 : f0.rows ≠ 0)
    (h : ∀ f ∈ rest, f.rows = f0.rows ∧ f0.cols ≤ f.cols) :
    convert_to_over_X (f0 :: rest)
      = .ok ((List.range f0.cols).map (slitX (f0 :: rest) f0.rows)) := by
  unfold convert_to_over_X
  apply forEachIndex_ok
  intro x hx
  have hx' : x < f0.cols := List.mem_range.1 hx
  rw [pushCols_first x f0 rest hx' hr0,
    pushCols_ok x rest ⟨f0.rows, [f0.data.filterMap (fun r => r[x]?)]⟩ (by simp) hr0
      (fun f hf => ⟨lt_of_lt_of_le hx' (h f hf).2, (h f hf).1⟩)]
  simp [slitX]

theorem convert_to_over_X_error (f0 : Mat α) (rest : List (Mat α)) (hc : f0.cols ≠ 0)
    (hr0 : f0.rows ≠ 0)
    (h : ∃ f ∈ rest, f.cols < f0.cols ∨ (f.rows ≠ 0 ∧ f.rows ≠ f0.rows)) :
    ∃ e, convert_to_over_X (f0 :: rest) = .error e := by
  unfold convert_to_over_X
  apply forEachIndex_error
  obtain ⟨f, hf, hbad⟩ := h
  have key : ∀ x, x < f0.cols → (f.cols ≤ x ∨ (f.rows ≠ 0 ∧ f.rows ≠ f0.rows)) →
      ∃ e, pushCols x (f0 :: rest) Mat.empty = .error e := by
    intro x hx hb
    rw [pushCols_first x f0 rest hx hr0]
    exact pushCols_error x rest _ (by simp) hr0 ⟨f, hf, hb⟩
  rcases hbad with hb | hb
  · exact ⟨f.cols, List.mem_range.2 hb, key f.cols hb (Or.inl le_rfl)⟩
  · exact ⟨0, List.mem_range.2 (Nat.pos_of_ne_zero hc), key 0 (Nat.pos_of_ne_zero hc) (Or.inr hb)⟩

theorem back_to_xy_eq (video : List (Mat α)) : back_to_xy video = convert_to_over_Y video := by
  cases video <;> rfl


/-! ## Samples of the slits -/

theorem getElem?_filterMap_of_isSome {β γ : Type} (g : β → Option γ) :
    ∀ (l : List β) (t : Nat), (∀ b ∈ l, (g b).isSome) → (l.filterMap g)[t]? = l[t]?.bind g
  | [], _, _ => by simp
  | b :: l, t, h => by
    obtain ⟨c, hc⟩ := Option.isSome_iff_exists.1 (h b (List.mem_cons_self _ _))
    have ih := fun t => getElem?_filterMap_of_isSome g l t (fun b hb => h b (List.mem_cons_of_mem _ hb))
    cases t with
    | zero => simp [List.filterMap_cons, hc]
    | succ t => simp [List.filterMap_cons, hc, ih t]

theorem length_filterMap_of_isSome {β γ : Type} (g : β → Option γ) :
    ∀ (l : List β), (∀ b ∈ l, (g b).isSome) → (l.filterMap g).length = l.length
  | [], _ => by simp
  | b :: l, h => by
    obtain ⟨c, hc⟩ := Option.isSome_iff_exists.1 (h b (List.mem_cons_self _ _))
    have ih := length_filterMap_of_isSome g l (fun b hb => h b (List.mem_cons_of_mem _ hb))
    simp [List.filterMap_cons, hc, ih]

theorem filterMap_range_getElem? {β : Type} (l : List β) :
    (List.range l.length).filterMap (fun i => l[i]?) = l := by
  apply List.ext_getElem?
  intro i
  rw [getElem?_filterMap_of_isSome]
  · by_cases hi : i < l.length
    · simp [List.getElem?_range hi]
    · have h1 : (List.range l.length)[i]? = none := List.getElem?_eq_none (by simpa using hi)
      have h2 : l[i]? = none := List.getElem?_eq_none (by simpa using hi)
      simp [h1, h2]
  · intro b hb
    have hb' : b < l.length := List.mem_range.1 hb
    simp [List.getElem?_eq_getElem hb']

theorem Uniform.row_isSome {V : List (Mat α)} {H W : Nat} (hU : Uniform V H W) {y : Nat}
    (hy : y < H) : ∀ f ∈ V, (f.data[y]?).isSome := by
  intro f hf
  have h : y < f.data.length := by have := (hU f hf).1; unfold Mat.rows at this; omega
  simp [List.getElem?_eq_getElem h]

theorem slitY_rows {V : List (Mat α)} {H W y : Nat} (hU : Uniform V H W) (hy : y < H) :
    (slitY V W y).rows = V.length :=
  length_filterMap_of_isSome _ V (hU.row_isSome hy)

theorem slitY_row {V : List (Mat α)} {H W y : Nat} (hU : Uniform V H W) (hy : y < H) (t : Nat) :
    (slitY V W y).data[t]? = V[t]?.bind (fun f => f.data[y]?) :=
  getElem?_filterMap_of_isSome _ V t (hU.row_isSome hy)

theorem slitY_WF {V : List (Mat α)} {H W y : Nat} (hU : Uniform V H W) :
    (slitY V W y).WF := by
  intro r hr
  obtain ⟨f, hf, hfr⟩ := List.mem_filterMap.1 hr
  rw [(hU f hf).2.2 r (List.getElem?_mem hfr), (hU f hf).2.1]
  rfl

theorem slitY_at {V : List (Mat α)} {H W y : Nat} (hU : Uniform V H W) (hy : y < H) (t w : Nat) :
    (slitY V W y).at? t w = V[t]?.bind (fun f => f.at? y w) := by
  unfold Mat.at?
  rw [slitY_row hU hy]
  cases V[t]? <;> simp

theorem Uniform.at_isSome {V : List (Mat α)} {H W : Nat} (hU : Uniform V H W) {f : Mat α}
    (hf : f ∈ V) {h w : Nat} (hh : h < H) (hw : w < W) : ∃ v, f.at? h w = some v := by
  obtain ⟨h1, h2, h3⟩ := hU f hf
  have hh' : h < f.data.length := by unfold Mat.rows at h1; omega
  have hw' : w < (f.data.get ⟨h, hh'⟩).length := by
    rw [h3 _ (List.get_mem _ _ _)]; omega
  exact ⟨(f.data.get ⟨h, hh'⟩).get ⟨w, hw'⟩, by
    simp [Mat.at?, List.getElem?_eq_getElem hh', List.getElem?_eq_getElem hw']⟩

theorem Uniform.col_isSome {V : List (Mat α)} {H W : Nat} (hU : Uniform V H W) {f : Mat α}
    (hf : f ∈ V) {x : Nat} (hx : x < W) : ∀ r ∈ f.data, (r[x]?).isSome := by
  intro r hr
  obtain ⟨_, h2, h3⟩ := hU f hf
  have : x < r.length := by rw [h3 r hr]; omega
  simp [List.getElem?_eq_getElem this]

theorem slitX_rows (V : List (Mat α)) (H x : Nat) : (slitX V H x).rows = V.length := by
  simp [slitX, Mat.rows]

theorem slitX_WF {V : List (Mat α)} {H W x : Nat} (hU : Uniform V H W) (hx : x < W) :
    (slitX V H x).WF := by
  intro r hr
  obtain ⟨f, hf, rfl⟩ := List.mem_map.1 hr
  rw [length_filterMap_of_isSome _ _ (hU.col_isSome hf hx)]
  exact (hU f hf).1

theorem slitX_at {V : List (Mat α)} {H W x : Nat} (hU : Uniform V H W) (hx : x < W) (t h : Nat) :
    (slitX V H x).at? t h = V[t]?.bind (fun f => f.at? h x) := by
  unfold Mat.at?
  simp only [slitX, List.getElem?_map]
  cases hV : V[t]? with
  | none => simp
  | some f =>
    have hf : f ∈ V := List.getElem?_mem hV
    simp [getElem?_filterMap_of_isSome _ f.data h (hU.col_isSome hf hx)]


theorem convert_to_over_Y_uniform (V : List (Mat α)) (H W : Nat) (hV : V ≠ []) (hW : W ≠ 0)
    (h : ∀ f ∈ V, f.rows = H ∧ f.cols = W) :
    convert_to_over_Y V = .ok ((List.range H).map (slitY V W)) := by
  cases V with
  | nil => exact absurd rfl hV
  | cons f0 rest =>
    obtain ⟨h1, h2⟩ := h f0 (List.mem_cons_self _ _)
    have := convert_to_over_Y_ok f0 rest (by rw [h2]; exact hW)
      (fun f hf => by
        obtain ⟨h3, h4⟩ := h f (List.mem_cons_of_mem _ hf)
        exact ⟨by rw [h4, h2], by rw [h3, h1]⟩)
    rw [this, h1, h2]

theorem convert_to_over_X_uniform (V : List (Mat α)) (H W : Nat) (hV : V ≠ []) (hH : H ≠ 0)
    (h : ∀ f ∈ V, f.rows = H ∧ f.cols = W) :
    convert_to_over_X V = .ok ((List.range W).map (slitX V H)) := by
  cases V with
  | nil => exact absurd rfl hV
  | cons f0 rest =>
    obtain ⟨h1, h2⟩ := h f0 (List.mem_cons_self _ _)
    have := convert_to_over_X_ok f0 rest (by rw [h1]; exact hH)
      (fun f hf => by
        obtain ⟨h3, h4⟩ := h f (List.mem_cons_of_mem _ hf)
        exact ⟨by rw [h3, h1], by rw [h4, h2]⟩)
    rw [this, h1, h2]

theorem Uniform.shape {V : List (Mat α)} {H W : Nat} (hU : Uniform V H W) :
    ∀ f ∈ V, f.rows = H ∧ f.cols = W := fun f hf => ⟨(hU f hf).1, (hU f hf).2.1⟩

theorem ne_nil_of_one_le_length {β : Type} {l : List β} (h : 1 ≤ l.length) : l ≠ [] := by
  intro h0; subst h0; simp at h

/-! ## The reslicing claims -/

/-- C3: for a volume of `T >= 1` frames of one shape `H x W` (`H, W >= 1`),
`convert_to_over_Y` returns exactly `H` slits, each of shape `(T, W)`, and the
sample at row `t`, column `w` of slit `y` is the sample at row `y`, column `w`
of frame `t`. -/
theorem C3_convert_to_over_Y_slits (V : List (Mat α)) (H W : Nat) (hT : 1 ≤ V.length)
    (_hH : 1 ≤ H) (hW : 1 ≤ W) (hU : Uniform V H W) :
    ∃ S, convert_to_over_Y V = .ok S ∧ S.length = H ∧
      ∀ y, y < H → ∃ s, S[y]? = some s ∧ s.rows = V.length ∧ s.cols = W ∧ s.WF ∧
        ∀ t w, t < V.length → w < W →
          ∃ f v, V[t]? = some f ∧ f.at? y w = some v ∧ s.at? t w = some v := by
  refine ⟨_, convert_to_over_Y_uniform V H W (ne_nil_of_one_le_length hT) (by omega) hU.shape,
    by simp, ?_⟩
  intro y hy
  refine ⟨slitY V W y, by simp [List.getElem?_range hy], slitY_rows hU hy, rfl, slitY_WF hU, ?_⟩
  intro t w ht hw
  have hf : V[t]? = some (V.get ⟨t, ht⟩) := List.getElem?_eq_getElem ht
  obtain ⟨v, hv⟩ := hU.at_isSome (List.get_mem V t ht) hy hw
  exact ⟨_, v, hf, hv, by rw [slitY_at hU hy, hf]; simpa using hv⟩

/-- C2: for a volume of `T >= 1` frames of one shape `H x W` (`H, W >= 1`),
`convert_to_over_X` returns exactly `W` slits, each of shape `(T, H)`, and the
sample at row `t`, column `h` of slit `x` is the sample at row `h`, column `x`
of frame `t`. -/
theorem C2_convert_to_over_X_slits (V : List (Mat α)) (H W : Nat) (hT : 1 ≤ V.length)
    (hH : 1 ≤ H) (_hW : 1 ≤ W) (hU : Uniform V H W) :
    ∃ S, convert_to_over_X V = .ok S ∧ S.length = W ∧
      ∀ x, x < W → ∃ s, S[x]? = some s ∧ s.rows = V.length ∧ s.cols = H ∧ s.WF ∧
        ∀ t h, t < V.length → h < H →
          ∃ f v, V[t]? = some f ∧ f.at? h x = some v ∧ s.at? t h = some v := by
  refine ⟨_, convert_to_over_X_uniform V H W (ne_nil_of_one_le_length hT) (by omega) hU.shape,
    by simp, ?_⟩
  intro x hx
  refine ⟨slitX V H x, by simp [List.getElem?_range hx], slitX_rows V H x, rfl,
    slitX_WF hU hx, ?_⟩
  intro t h ht hh
  have hf : V[t]? = some (V.get ⟨t, ht⟩) := List.getElem?_eq_getElem ht
  obtain ⟨v, hv⟩ := hU.at_isSome (List.get_mem V t ht) hh hx
  exact ⟨_, v, hf, hv, by rw [slitX_at hU hx, hf]; simpa using hv⟩


theorem C3_convert_to_over_Y_slits_witness :
    Uniform grayVolume 4 4 ∧
    convert_to_over_Y grayVolume
      = .ok (List.replicate 4 ⟨4, List.replicate 3 (List.replicate 4 128)⟩) ∧
    ∃ S, convert_to_over_Y grayVolume = .ok S ∧ S.length = 4 ∧
      ∀ y, y < 4 → ∃ s, S[y]? = some s ∧ s.rows = grayVolume.length ∧ s.cols = 4 ∧ s.WF ∧
        ∀ t w, t < grayVolume.length → w < 4 →
          ∃ f v, grayVolume[t]? = some f ∧ f.at? y w = some v ∧ s.at? t w = some v :=
  ⟨by decide, rfl,
    C3_convert_to_over_Y_slits grayVolume 4 4 (by decide) (by decide) (by decide) (by decide)⟩

theorem C2_convert_to_over_X_slits_witness :
    Uniform blackWhiteVolume 2 2 ∧
    convert_to_over_X blackWhiteVolume
      = .ok [⟨2, [[0, 0], [255, 255]]⟩, ⟨2, [[0, 0], [255, 255]]⟩] ∧
    ∃ S, convert_to_over_X blackWhiteVolume = .ok S ∧ S.length = 2 ∧
      ∀ x, x < 2 → ∃ s, S[x]? = some s ∧ s.rows = blackWhiteVolume.length ∧ s.cols = 2 ∧ s.WF ∧
        ∀ t h, t < blackWhiteVolume.length → h < 2 →
          ∃ f v, blackWhiteVolume[t]? = some f ∧ f.at? h x = some v ∧ s.at? t h = some v :=
  ⟨by decide, rfl,
    C2_convert_to_over_X_slits blackWhiteVolume 2 2 (by decide) (by decide) (by decide)
      (by decide)⟩

theorem slitY_of_slitY {V : List (Mat α)} {H W : Nat} (hU : Uniform V H W) {t : Nat} {f : Mat α}
    (hf : V[t]? = some f) :
    slitY ((List.range H).map (slitY V W)) W t = f := by
  obtain ⟨h1, h2, _⟩ := hU f (List.getElem?_mem hf)
  have hdata : ((List.range H).map (slitY V W)).filterMap (fun s => s.data[t]?) = f.data := by
    rw [List.filterMap_map]
    have : (List.range H).filterMap ((fun s : Mat α => s.data[t]?) ∘ slitY V W)
        = (List.range H).filterMap (fun y => f.data[y]?) := by
      apply List.filterMap_congr
      intro y hy
      simp only [Function.comp]
      rw [slitY_row hU (List.mem_range.1 hy), hf]
      rfl
    rw [this, ← h1]
    exact filterMap_range_getElem? f.data
  cases f with
  | mk c d =>
    simp only [slitY, Mat.mk.injEq]
    exact ⟨h2.symm, hdata⟩

/-- C1: for a volume `V` of `T >= 1` frames of one shape `H x W` (`H, W >= 1`),
the reconstruction loop of `main` applied to `convert_to_over_Y V` returns `V`
itself. -/
theorem C1_reconstruct_Y_reslice (V : List (Mat α)) (H W : Nat) (hT : 1 ≤ V.length)
    (hH : 1 ≤ H) (hW : 1 ≤ W) (hU : Uniform V H W) :
    (convert_to_over_Y V).bind back_to_xy = .ok V := by
  rw [convert_to_over_Y_uniform V H W (ne_nil_of_one_le_length hT) (by omega) hU.shape]
  show back_to_xy _ = _
  rw [back_to_xy_eq,
    convert_to_over_Y_uniform _ V.length W (by simp; omega) (by omega)
      (fun s hs => by
        obtain ⟨y, hy, rfl⟩ := List.mem_map.1 hs
        exact ⟨slitY_rows hU (List.mem_range.1 hy), rfl⟩)]
  congr 1
  apply List.ext_getElem?
  intro t
  by_cases ht : t < V.length
  · have hf : V[t]? = some (V.get ⟨t, ht⟩) := List.getElem?_eq_getElem ht
    rw [List.getElem?_map, List.getElem?_range ht, hf]
    simp only [Option.map_some']
    rw [slitY_of_slitY hU hf]
  · have h1 : V[t]? = none := List.getElem?_eq_none (by omega)
    rw [h1]
    exact List.getElem?_eq_none (by simpa using ht)

theorem C1_reconstruct_Y_reslice_witness :
    Uniform rampVolume 2 3 ∧
    (convert_to_over_Y rampVolume).bind back_to_xy = .ok rampVolume :=
  ⟨by decide,
    C1_reconstruct_Y_reslice rampVolume 2 3 (by decide) (by decide) (by decide) (by decide)⟩


theorem transpose_of_shape {f : Mat α} {H W : Nat} (hH : 1 ≤ H) (hW : 1 ≤ W)
    (h1 : f.rows = H) (h2 : f.cols = W) :
    f.transpose = ⟨H, (List.range W).map (fun c => f.data.filterMap (fun r => r[c]?))⟩ := by
  subst h1 h2
  have hr : f.rows ≠ 0 := by omega
  have hc : f.cols ≠ 0 := by omega
  simp [Mat.transpose, Mat.isEmpty, hr, hc]

theorem transpose_at {f : Mat α} {H W : Nat} (hH : 1 ≤ H) (hW : 1 ≤ W)
    (h1 : f.rows = H) (h2 : f.cols = W) (h3 : f.WF) (w h : Nat) :
    f.transpose.at? w h = if w < W then f.at? h w else none := by
  rw [transpose_of_shape hH hW h1 h2]
  unfold Mat.at?
  by_cases hw : w < W
  · have hs : ∀ r ∈ f.data, (r[w]?).isSome := by
      intro r hr
      have : w < r.length := by rw [h3 r hr]; omega
      simp [List.getElem?_eq_getElem this]
    simp [hw, List.getElem?_range hw, getElem?_filterMap_of_isSome _ f.data h hs]
  · have : ((List.range W).map (fun c => f.data.filterMap (fun r => r[c]?)))[w]? = none :=
      List.getElem?_eq_none (by simpa using hw)
    simp [hw, this]

theorem at_eq_none_of_cols_le {f : Mat α} (h3 : f.WF) {i j : Nat} (hj : f.cols ≤ j) :
    f.at? i j = none := by
  unfold Mat.at?
  cases hr : f.data[i]? with
  | none => rfl
  | some r =>
    have : r.length ≤ j := by rw [h3 r (List.getElem?_mem hr)]; exact hj
    simp [List.getElem?_eq_none this]

theorem at_eq_none_of_rows_le {f : Mat α} {i j : Nat} (hi : f.rows ≤ i) : f.at? i j = none := by
  unfold Mat.at?
  have : f.data[i]? = none := List.getElem?_eq_none hi
  simp [this]

theorem Mat.ext_at {f g : Mat α} (hc : f.cols = g.cols) (hr : f.rows = g.rows) (hf : f.WF)
    (hg : g.WF) (h : ∀ i j, f.at? i j = g.at? i j) : f = g := by
  cases f with
  | mk fc fd =>
    cases g with
    | mk gc gd =>
      simp only [Mat.mk.injEq]
      refine ⟨hc, ?_⟩
      apply List.ext_getElem?
      intro i
      have hi := h i
      simp only [Mat.at?] at hi
      simp only [Mat.rows] at hr
      by_cases hlt : i < fd.length
      · have hlt' : i < gd.length := by omega
        rw [List.getElem?_eq_getElem hlt, List.getElem?_eq_getElem hlt'] at hi ⊢
        congr 1
        apply List.ext_getElem?
        intro j
        simpa using hi j
      · rw [List.getElem?_eq_none (by omega), List.getElem?_eq_none (by omega)]

theorem transpose_WF {f : Mat α} {H W : Nat} (hH : 1 ≤ H) (hW : 1 ≤ W)
    (h1 : f.rows = H) (h2 : f.cols = W) (h3 : f.WF) : f.transpose.WF := by
  rw [transpose_of_shape hH hW h1 h2]
  intro r hr
  obtain ⟨c, hc, rfl⟩ := List.mem_map.1 hr
  have hs : ∀ r ∈ f.data, (r[c]?).isSome := by
    intro r hr
    have : c < r.length := by rw [h3 r hr, h2]; exact List.mem_range.1 hc
    simp [List.getElem?_eq_getElem this]
  rw [length_filterMap_of_isSome _ _ hs]
  exact h1

theorem transpose_eq_self_iff {f : Mat α} {H W : Nat} (hH : 1 ≤ H) (hW : 1 ≤ W)
    (h1 : f.rows = H) (h2 : f.cols = W) (h3 : f.WF) :
    f.transpose = f ↔ H = W ∧ ∀ i j, f.at? i j = f.at? j i := by
  have hT : f.transpose = _ := transpose_of_shape hH hW h1 h2
  constructor
  · intro h
    have hHW : H = W := by
      have := congrArg Mat.cols h
      rw [hT] at this
      simpa [h2] using this
    refine ⟨hHW, fun i j => ?_⟩
    have := transpose_at hH hW h1 h2 h3 i j
    rw [h] at this
    rw [this]
    by_cases hi : i < W
    · simp [hi]
    · simp only [hi, if_false]
      exact (at_eq_none_of_cols_le h3 (by omega)).symm
  · rintro ⟨hHW, hsym⟩
    apply Mat.ext_at
    · rw [hT, h2]; exact hHW
    · rw [hT]; simp [Mat.rows]; unfold Mat.rows at h1; omega
    · exact transpose_WF hH hW h1 h2 h3
    · exact h3
    · intro i j
      rw [transpose_at hH hW h1 h2 h3 i j]
      by_cases hi : i < W
      · simp [hi, hsym j i]
      · simp only [hi, if_false]
        exact (at_eq_none_of_rows_le (by omega)).symm

theorem slitY_of_slitX {V : List (Mat α)} {H W : Nat} (hH : 1 ≤ H) (hW : 1 ≤ W)
    (hU : Uniform V H W) {t : Nat} {f : Mat α} (hf : V[t]? = some f) :
    slitY ((List.range W).map (slitX V H)) H t = f.transpose := by
  obtain ⟨h1, h2, _⟩ := hU f (List.getElem?_mem hf)
  rw [transpose_of_shape hH hW h1 h2]
  simp only [slitY, Mat.mk.injEq, true_and]
  rw [List.filterMap_map]
  have : (List.range W).filterMap ((fun s : Mat α => s.data[t]?) ∘ slitX V H)
      = (List.range W).filterMap (fun x => some (f.data.filterMap (fun r => r[x]?))) := by
    apply List.filterMap_congr
    intro x _
    simp [Function.comp, slitX, List.getElem?_map, hf]
  rw [this]
  exact List.filterMap_eq_map _ ▸ rfl


theorem map_eq_self_iff {β : Type} (g : β → β) :
    ∀ l : List β, l.map g = l ↔ ∀ b ∈ l, g b = b
  | [] => by simp
  | b :: l => by simp [map_eq_self_iff g l]

/-- C10: for a volume `V` of `T >= 1` frames of one shape `H x W` (`H, W >= 1`),
the reconstruction loop of `main` applied to `convert_to_over_X V` yields the
`T` transposed frames, each of shape `(W, H)`; the result is `V` exactly when
the frames are square and symmetric. -/
theorem C10_reconstruct_X_reslice (V : List (Mat α)) (H W : Nat) (hT : 1 ≤ V.length)
    (hH : 1 ≤ H) (hW : 1 ≤ W) (hU : Uniform V H W) :
    (convert_to_over_X V).bind back_to_xy = .ok (V.map Mat.transpose) ∧
    (V.map Mat.transpose).length = V.length ∧
    (∀ f ∈ V, f.transpose.rows = W ∧ f.transpose.cols = H ∧ f.transpose.WF ∧
      ∀ w h, w < W → h < H → ∃ v, f.at? h w = some v ∧ f.transpose.at? w h = some v) ∧
    ((convert_to_over_X V).bind back_to_xy = .ok V ↔
      H = W ∧ ∀ f ∈ V, ∀ i j, f.at? i j = f.at? j i) := by
  have hmain : (convert_to_over_X V).bind back_to_xy = .ok (V.map Mat.transpose) := by
    rw [convert_to_over_X_uniform V H W (ne_nil_of_one_le_length hT) (by omega) hU.shape]
    show back_to_xy _ = _
    rw [back_to_xy_eq,
      convert_to_over_Y_uniform _ V.length H (by simp; omega) (by omega)
        (fun s hs => by
          obtain ⟨x, _, rfl⟩ := List.mem_map.1 hs
          exact ⟨slitX_rows V H x, rfl⟩)]
    congr 1
    apply List.ext_getElem?
    intro t
    by_cases ht : t < V.length
    · have hf : V[t]? = some (V.get ⟨t, ht⟩) := List.getElem?_eq_getElem ht
      rw [List.getElem?_map, List.getElem?_range ht, List.getElem?_map, hf]
      simp only [Option.map_some']
      rw [slitY_of_slitX hH hW hU hf]
    · have h1 : (V.map Mat.transpose)[t]? = none := List.getElem?_eq_none (by simpa using ht)
      rw [h1]
      exact List.getElem?_eq_none (by simpa using ht)
  refine ⟨hmain, by simp, ?_, ?_⟩
  · intro f hf
    obtain ⟨h1, h2, h3⟩ := hU f hf
    refine ⟨?_, ?_, transpose_WF hH hW h1 h2 h3, ?_⟩
    · rw [transpose_of_shape hH hW h1 h2]; simp [Mat.rows]
    · rw [transpose_of_shape hH hW h1 h2]
    · intro w h hw hh
      obtain ⟨v, hv⟩ := hU.at_isSome hf hh hw
      exact ⟨v, hv, by rw [transpose_at hH hW h1 h2 h3, if_pos hw, hv]⟩
  · rw [hmain]
    have h0 : (Except.ok (V.map Mat.transpose) : Except CvError (List (Mat α))) = .ok V ↔
        V.map Mat.transpose = V := by
      constructor
      · intro h; injection h
      · intro h; rw [h]
    rw [h0, map_eq_self_iff]
    constructor
    · intro h
      obtain ⟨f0, hf0⟩ := List.exists_mem_of_ne_nil V (ne_nil_of_one_le_length hT)
      refine ⟨((transpose_eq_self_iff hH hW (hU f0 hf0).1 (hU f0 hf0).2.1 (hU f0 hf0).2.2).1
        (h f0 hf0)).1, fun f hf => ?_⟩
      exact ((transpose_eq_self_iff hH hW (hU f hf).1 (hU f hf).2.1 (hU f hf).2.2).1 (h f hf)).2
    · rintro ⟨hHW, hsym⟩ f hf
      exact (transpose_eq_self_iff hH hW (hU f hf).1 (hU f hf).2.1 (hU f hf).2.2).2
        ⟨hHW, hsym f hf⟩

theorem C10_reconstruct_X_reslice_witness :
    Uniform rampVolume 2 3 ∧
    (convert_to_over_X rampVolume).bind back_to_xy
      = .ok [⟨2, [[1, 4], [2, 5], [3, 6]]⟩, ⟨2, [[7, 10], [8, 11], [9, 12]]⟩] ∧
    (convert_to_over_X rampVolume).bind back_to_xy = .ok (rampVolume.map Mat.transpose) :=
  ⟨by decide, rfl,
    (C10_reconstruct_X_reslice rampVolume 2 3 (by decide) (by decide) (by decide)
      (by decide)).1⟩

/-! ## Shape validation -/

/-- C4 (amended): for a non-empty sequence of frames that all have at least one
row and one column, `convert_to_over_Y` fails when some frame differs from
frame 0 in width or has fewer rows than frame 0, and otherwise succeeds (a
frame may have more rows than frame 0; the surplus rows are not read);
`convert_to_over_X` fails when some frame differs from frame 0 in height or has
fewer columns than frame 0, and otherwise succeeds (a frame may have more
columns than frame 0; the surplus columns are not read). -/
theorem C4_mismatched_shapes (f0 : Mat α) (rest : List (Mat α))
    (hne : ∀ f ∈ f0 :: rest, 1 ≤ f.rows ∧ 1 ≤ f.cols) :
    ((∃ f ∈ rest, f.cols ≠ f0.cols ∨ f.rows < f0.rows) →
      ∃ e, convert_to_over_Y (f0 :: rest) = .error e) ∧
    ((∀ f ∈ rest, f.cols = f0.cols ∧ f0.rows ≤ f.rows) →
      convert_to_over_Y (f0 :: rest)
        = .ok ((List.range f0.rows).map (slitY (f0 :: rest) f0.cols))) ∧
    ((∃ f ∈ rest, f.rows ≠ f0.rows ∨ f.cols < f0.cols) →
      ∃ e, convert_to_over_X (f0 :: rest) = .error e) ∧
    ((∀ f ∈ rest, f.rows = f0.rows ∧ f0.cols ≤ f.cols) →
      convert_to_over_X (f0 :: rest)
        = .ok ((List.range f0.cols).map (slitX (f0 :: rest) f0.rows))) := by
  obtain ⟨hr0, hc0⟩ := hne f0 (List.mem_cons_self _ _)
  refine ⟨fun h => convert_to_over_Y_error f0 rest (by omega) (by omega) h,
    fun h => convert_to_over_Y_ok f0 rest (by omega) h,
    fun h => convert_to_over_X_error f0 rest (by omega) (by omega) ?_,
    fun h => convert_to_over_X_ok f0 rest (by omega) h⟩
  obtain ⟨f, hf, hbad⟩ := h
  have := (hne f (List.mem_cons_of_mem _ hf)).1
  refine ⟨f, hf, ?_⟩
  rcases hbad with hb | hb
  · exact Or.inr ⟨by omega, hb⟩
  · exact Or.inl hb

theorem C4_mismatched_shapes_witness :
    (∀ f ∈ tallSecondVolume, 1 ≤ f.rows ∧ 1 ≤ f.cols) ∧
    (∃ e, convert_to_over_X tallSecondVolume = .error e) ∧
    convert_to_over_Y tallSecondVolume = .ok [⟨1, [[1], [2]]⟩] :=
  ⟨by decide,
    (C4_mismatched_shapes (⟨1, [[1]]⟩ : Mat Nat) [⟨1, [[2], [3]]⟩] (by decide)).2.2.1
      ⟨⟨1, [[2], [3]]⟩, by decide, by decide⟩,
    ((C4_mismatched_shapes (⟨1, [[1]]⟩ : Mat Nat) [⟨1, [[2], [3]]⟩] (by decide)).2.1
      (by decide)).trans rfl⟩

/-- C4 as stated fails: the second frame of `tallSecondVolume` has more rows
than frame 0 and `convert_to_over_Y` returns a stack; the second frame of
`wideSecondVolume` has more columns than frame 0 and `convert_to_over_X`
returns a stack. -/
theorem C4_counterexample :
    (∃ f ∈ tallSecondVolume, f.rows ≠ 1 ∨ f.cols ≠ 1) ∧
    convert_to_over_Y tallSecondVolume = .ok [⟨1, [[1], [2]]⟩] ∧
    (∃ f ∈ wideSecondVolume, f.rows ≠ 1 ∨ f.cols ≠ 1) ∧
    convert_to_over_X wideSecondVolume = .ok [⟨1, [[1], [2]]⟩] :=
  ⟨by decide, rfl, by decide, rfl⟩

/-- C5 (amended): on a non-empty sequence nothing is validated:
`convert_to_over_X` returns the empty stack as a success when frame 0 has
width 0, and `convert_to_over_Y` returns the empty stack as a success when
frame 0 has height 0. -/
theorem C5_zero_size_frames (f0 : Mat α) (rest : List (Mat α)) :
    (f0.cols = 0 → convert_to_over_X (f0 :: rest) = .ok []) ∧
    (f0.rows = 0 → convert_to_over_Y (f0 :: rest) = .ok []) := by
  refine ⟨fun h => ?_, fun h => ?_⟩
  · simp [convert_to_over_X, h, forEachIndex]
  · simp [convert_to_over_Y, h, forEachIndex]

theorem C5_zero_size_frames_witness :
    (⟨0, [[], []]⟩ : Mat Nat).cols = 0 ∧ (⟨3, []⟩ : Mat Nat).rows = 0 ∧
    convert_to_over_X [(⟨0, [[], []]⟩ : Mat Nat), ⟨0, [[], []]⟩] = .ok [] ∧
    convert_to_over_Y [(⟨3, []⟩ : Mat Nat)] = .ok [] :=
  ⟨rfl, rfl, (C5_zero_size_frames (⟨0, [[], []]⟩ : Mat Nat) [⟨0, [[], []]⟩]).1 rfl,
    (C5_zero_size_frames (⟨3, []⟩ : Mat Nat) []).2 rfl⟩

/-- C5 as stated fails: a sequence of one frame without rows and columns is
resliced successfully, to the empty stack, along both axes. -/
theorem C5_counterexample :
    (Mat.empty : Mat Nat).rows = 0 ∧ (Mat.empty : Mat Nat).cols = 0 ∧
    convert_to_over_X [(Mat.empty : Mat Nat)] = .ok [] ∧
    convert_to_over_Y [(Mat.empty : Mat Nat)] = .ok [] :=
  ⟨rfl, rfl, rfl, rfl⟩



/-! ## The 9-tap filter -/

theorem borderInterpolate_lt (p : Int) {len : Nat} (h : 1 ≤ len) : borderInterpolate p len < len := by
  unfold borderInterpolate
  by_cases h1 : len ≤ 1
  · simp [h1]; omega
  · simp only [h1, if_false]
    have hpos : (0 : Int) < 2 * ((len : Int) - 1) := by omega
    have hq0 := Int.emod_nonneg p (ne_of_gt hpos)
    have hq1 := Int.emod_lt_of_pos p hpos
    by_cases h2 : p % (2 * ((len : Int) - 1)) < len
    · simp only [h2, if_true]; omega
    · simp only [h2, if_false]; omega

theorem tabulate_const (rows cols : Nat) (v : ℚ) :
    tabulate rows cols (fun _ _ => v) = constMat rows cols v := by
  simp [tabulate, constMat, List.map_const']

theorem samples_constMat {β : Type} (rows cols : Nat) (v : β) :
    ∀ a ∈ (constMat rows cols v).samples, a = v := by
  intro a ha
  simp only [Mat.samples, constMat, List.mem_flatten] at ha
  obtain ⟨r, hr, har⟩ := ha
  rw [List.eq_of_mem_replicate hr] at har
  exact List.eq_of_mem_replicate har

theorem foldl_min_const (w : ℚ) : ∀ (l : List ℚ), (∀ a ∈ l, a = w) → l.foldl min w = w
  | [], _ => rfl
  | a :: l, h => by
    have ha : a = w := h a (List.mem_cons_self _ _)
    simp only [List.foldl_cons, ha, min_self]
    exact foldl_min_const w l (fun b hb => h b (List.mem_cons_of_mem _ hb))

theorem foldl_max_const (w : ℚ) : ∀ (l : List ℚ), (∀ a ∈ l, a = w) → l.foldl max w = w
  | [], _ => rfl
  | a :: l, h => by
    have ha : a = w := h a (List.mem_cons_self _ _)
    simp only [List.foldl_cons, ha, max_self]
    exact foldl_max_const w l (fun b hb => h b (List.mem_cons_of_mem _ hb))

theorem matMin_of_const {m : Mat ℚ} {w : ℚ} (hne : m.samples ≠ []) (h : ∀ a ∈ m.samples, a = w) :
    matMin m = w := by
  unfold matMin
  cases hs : m.samples with
  | nil => exact absurd hs hne
  | cons v vs =>
    rw [hs] at h
    have hv : v = w := h v (List.mem_cons_self _ _)
    simp only [hv]
    exact foldl_min_const w vs (fun b hb => h b (List.mem_cons_of_mem _ hb))

theorem matMax_of_const {m : Mat ℚ} {w : ℚ} (hne : m.samples ≠ []) (h : ∀ a ∈ m.samples, a = w) :
    matMax m = w := by
  unfold matMax
  cases hs : m.samples with
  | nil => exact absurd hs hne
  | cons v vs =>
    rw [hs] at h
    have hv : v = w := h v (List.mem_cons_self _ _)
    simp only [hv]
    exact foldl_max_const w vs (fun b hb => h b (List.mem_cons_of_mem _ hb))

theorem samples_constMat_ne_nil {β : Type} {rows cols : Nat} (hr : 1 ≤ rows) (hc : 1 ≤ cols)
    (v : β) : (constMat rows cols v).samples ≠ [] := by
  obtain ⟨r, rfl⟩ : ∃ r, rows = r + 1 := ⟨rows - 1, by omega⟩
  obtain ⟨c, rfl⟩ : ∃ c, cols = c + 1 := ⟨cols - 1, by omega⟩
  simp [Mat.samples, constMat, List.replicate_succ]

theorem map_constMat {β γ : Type} (f : β → γ) (rows cols : Nat) (v : β) :
    (constMat rows cols v).map f = constMat rows cols (f v) := by
  simp [Mat.map, constMat]

theorem normalize_constMat {rows cols : Nat} (hr : 1 ≤ rows) (hc : 1 ≤ cols) (w : ℚ) :
    normalize (constMat rows cols w) = constMat rows cols 0 := by
  have hmin := matMin_of_const (samples_constMat_ne_nil hr hc w) (samples_constMat rows cols w)
  have hmax := matMax_of_const (samples_constMat_ne_nil hr hc w) (samples_constMat rows cols w)
  have hs : normalizeScale (constMat rows cols w) = 0 := by
    simp [normalizeScale, hmin, hmax, DBL_EPSILON]
  unfold normalize
  rw [map_constMat]
  simp [normalizeShift, hs]

theorem saturate_cast_uchar_zero : saturate_cast_uchar 0 = 0 := by
  simp [saturate_cast_uchar, cvRound]

theorem sampleAt_of_const {frame : Mat ℚ} {c : ℚ} (hr : 1 ≤ frame.rows) (hc : 1 ≤ frame.cols)
    (hwf : frame.WF) (hconst : ∀ v ∈ frame.samples, v = c) (y x : Int) :
    sampleAt frame y x = c := by
  unfold sampleAt
  have hy := borderInterpolate_lt y hr
  have hx := borderInterpolate_lt x hc
  have hy' : borderInterpolate y frame.rows < frame.data.length := hy
  rw [List.getD_eq_getElem _ _ hy']
  have hmem : frame.data[borderInterpolate y frame.rows] ∈ frame.data := List.getElem_mem _
  have hlen := hwf _ hmem
  have hx' : borderInterpolate x frame.cols < (frame.data[borderInterpolate y frame.rows]).length := by
    rw [hlen]; exact hx
  rw [List.getD_eq_getElem _ _ hx']
  apply hconst
  simp only [Mat.samples, List.mem_flatten]
  exact ⟨_, hmem, List.getElem_mem _⟩


theorem nine_tap_response_of_const {frame : Mat ℚ} {c : ℚ} (hr : 1 ≤ frame.rows)
    (hc : 1 ≤ frame.cols) (hwf : frame.WF) (hconst : ∀ v ∈ frame.samples, v = c) :
    nine_tap_response frame = .ok (constMat frame.rows frame.cols (c * (-0.0003) * 2.6454)) := by
  have he : frame.isEmpty = false := by
    have h1 : frame.rows ≠ 0 := by omega
    have h2 : frame.cols ≠ 0 := by omega
    simp [Mat.isEmpty, h1, h2]
  have hat : sepFilter2D_at frame in_x in_t = fun _ _ => c * (-0.0003) * 2.6454 := by
    funext y x
    simp only [sepFilter2D_at, sampleAt_of_const hr hc hwf hconst]
    simp [weightedSum, in_x, in_t, List.range_succ]
    ring
  simp only [nine_tap_response, sepFilter2D, he, hat, tabulate_const]
  rfl

theorem forEachMat_map {β γ : Type} (body : β → Except CvError γ) (g : β → γ) :
    ∀ xs : List β, (∀ x ∈ xs, body x = .ok (g x)) → forEachMat body xs = .ok (xs.map g)
  | [], _ => rfl
  | x :: xs, h => by
    have h1 := h x (List.mem_cons_self _ _)
    have h2 := forEachMat_map body g xs (fun z hz => h z (List.mem_cons_of_mem _ hz))
    simp [forEachMat, h1, h2]

/-- C8: on a stack of slits that each have all samples equal,
`convolve_with_9_tap` returns for every slit the image of the same shape whose
samples are all 0: the response is constant, so the squared response has equal
minimum and maximum, the scale of the normalisation is 0 (no division), and
every output sample is 0. -/
theorem C8_nine_tap_constant_slit (over_y : List (Mat ℚ))
    (h : ∀ frame ∈ over_y, ConstantSlit frame) :
    convolve_with_9_tap over_y = .ok (over_y.map (fun frame => constMat frame.rows frame.cols 0)) ∧
    ∀ frame ∈ over_y, ∃ w, nine_tap_response frame = .ok (constMat frame.rows frame.cols w) ∧
      matMin (constMat frame.rows frame.cols (w * w)) = matMax (constMat frame.rows frame.cols (w * w)) ∧
      normalizeScale (constMat frame.rows frame.cols (w * w)) = 0 := by
  constructor
  · unfold convolve_with_9_tap
    apply forEachMat_map
    intro frame hf
    obtain ⟨hr, hc, hwf, c, hconst⟩ := h frame hf
    simp only [nine_tap_frame, nine_tap_response_of_const hr hc hwf hconst, map_constMat,
      normalize_constMat hr hc, convertTo_8UC1, saturate_cast_uchar_zero]
  · intro frame hf
    obtain ⟨hr, hc, hwf, c, hconst⟩ := h frame hf
    refine ⟨_, nine_tap_response_of_const hr hc hwf hconst, ?_, ?_⟩
    · rw [matMin_of_const (samples_constMat_ne_nil hr hc _) (samples_constMat _ _ _),
        matMax_of_const (samples_constMat_ne_nil hr hc _) (samples_constMat _ _ _)]
    · simp [normalizeScale,
        matMin_of_const (samples_constMat_ne_nil hr hc _) (samples_constMat _ _ _),
        matMax_of_const (samples_constMat_ne_nil hr hc _) (samples_constMat _ _ _), DBL_EPSILON]

theorem C8_nine_tap_constant_slit_witness :
    (∀ frame ∈ List.replicate 4 graySlit, ConstantSlit frame) ∧
    convolve_with_9_tap (List.replicate 4 graySlit) = .ok (List.replicate 4 (constMat 3 4 0)) :=
  ⟨by
    intro frame hf
    rw [List.eq_of_mem_replicate hf]
    exact ⟨by decide, by decide, by decide, 128, samples_constMat 3 4 128⟩,
   (C8_nine_tap_constant_slit (List.replicate 4 graySlit) (by
      intro frame hf
      rw [List.eq_of_mem_replicate hf]
      exact ⟨by decide, by decide, by decide, 128, samples_constMat 3 4 128⟩)).1⟩


theorem weightedSum_eq_sum_range (k : List ℚ) (f : Nat → ℚ) :
    weightedSum k f = ∑ i in Finset.range k.length, k.getD i 0 * f i := by
  unfold weightedSum
  induction k using List.reverseRecOn with
  | nil => simp
  | append_singleton k c ih =>
    have hz : List.zipWith (fun c i => c * f i) (k ++ [c]) (List.range (k ++ [c]).length)
        = List.zipWith (fun c i => c * f i) k (List.range k.length) ++ [c * f k.length] := by
      rw [List.length_append, List.length_singleton, List.range_succ,
        List.zipWith_append _ _ _ _ _ (by simp)]
      simp
    rw [hz, List.sum_append, ih, List.length_append, List.length_singleton,
      Finset.sum_range_succ]
    congr 1
    · apply Finset.sum_congr rfl
      intro i hi
      have hi' : i < k.length := Finset.mem_range.1 hi
      simp [List.getD_eq_getElem?_getD, List.getElem?_append_left hi']
    · simp [List.getD_eq_getElem?_getD]

theorem getD_of_reverse_eq {k : List ℚ} (hk : k.reverse = k) {j : Nat} (hj : j < k.length) :
    k.getD (k.length - 1 - j) 0 = k.getD j 0 := by
  have h1 : k.reverse[j]? = k[k.length - 1 - j]? := List.getElem?_reverse hj
  rw [hk] at h1
  simp [List.getD_eq_getElem?_getD, h1]

/-- Correlating with a palindromic kernel of odd length about its centre is
convolving with it. -/
theorem weightedSum_flip (k : List ℚ) (hk : k.reverse = k) (hodd : k.length % 2 = 1)
    (g : Int → ℚ) (a : Int) :
    weightedSum k (fun i => g (a + i - anchorOf k.length))
      = weightedSum k (fun i => g (a - (i - anchorOf k.length))) := by
  rw [weightedSum_eq_sum_range, weightedSum_eq_sum_range]
  rw [← Finset.sum_range_reflect (fun i => k.getD i 0 * g (a - (i - anchorOf k.length)))]
  apply Finset.sum_congr rfl
  intro j hj
  have hj' : j < k.length := Finset.mem_range.1 hj
  rw [getD_of_reverse_eq hk hj']
  congr 2
  unfold anchorOf
  have hc : ((k.length - 1 - j : Nat) : Int) = (k.length : Int) - 1 - j := by omega
  rw [hc]
  have h2 : ((k.length / 2 : Nat) : Int) * 2 + 1 = k.length := by omega
  linarith

theorem sepFilter2D_at_eq_sepConv2D_at (src : Mat ℚ) (kernelX kernelY : List ℚ)
    (hx : kernelX.reverse = kernelX) (hxo : kernelX.length % 2 = 1)
    (hy : kernelY.reverse = kernelY) (hyo : kernelY.length % 2 = 1) (y x : Nat) :
    sepFilter2D_at src kernelX kernelY y x = sepConv2D_at src kernelX kernelY y x := by
  unfold sepFilter2D_at sepConv2D_at
  have inner : ∀ Y : Int,
      weightedSum kernelX (fun i => sampleAt src Y ((x : Int) + i - anchorOf kernelX.length))
        = weightedSum kernelX (fun i => sampleAt src Y ((x : Int) - (i - anchorOf kernelX.length))) :=
    fun Y => weightedSum_flip kernelX hx hxo (fun X => sampleAt src Y X) x
  simp only [inner]
  exact weightedSum_flip kernelY hy hyo
    (fun Y => weightedSum kernelX
      (fun i => sampleAt src Y ((x : Int) - (i - anchorOf kernelX.length)))) y

theorem sepFilter2D_eq_sepConv2D (src : Mat ℚ) (kernelX kernelY : List ℚ)
    (hx : kernelX.reverse = kernelX) (hxo : kernelX.length % 2 = 1)
    (hy : kernelY.reverse = kernelY) (hyo : kernelY.length % 2 = 1) :
    sepFilter2D src kernelX kernelY = sepConv2D src kernelX kernelY := by
  unfold sepFilter2D sepConv2D
  have : sepFilter2D_at src kernelX kernelY = sepConv2D_at src kernelX kernelY := by
    funext y x
    exact sepFilter2D_at_eq_sepConv2D_at src kernelX kernelY hx hxo hy hyo y x
  rw [this]

/-- C9: both 9-tap kernels are palindromic, `k[i] = k[8 - i]`, and therefore the
response that `convolve_with_9_tap` computes before squaring, a separable
correlation (`in_x` along the rows, `in_t` along the columns), is the separable
2-D convolution with these kernels, with the same border, on every slit. -/
theorem C9_nine_tap_is_convolution :
    (∀ i, i < 9 → in_x.getD i 0 = in_x.getD (8 - i) 0 ∧ in_t.getD i 0 = in_t.getD (8 - i) 0) ∧
    ∀ slit : Mat ℚ,
      nine_tap_response slit = sepConv2D slit in_x in_t ∧
      ∀ y x, sepFilter2D_at slit in_x in_t y x = sepConv2D_at slit in_x in_t y x := by
  have hx : in_x.reverse = in_x := by simp [in_x]
  have ht : in_t.reverse = in_t := by simp [in_t]
  refine ⟨?_, fun slit => ⟨sepFilter2D_eq_sepConv2D slit in_x in_t hx rfl ht rfl,
    fun y x => sepFilter2D_at_eq_sepConv2D_at slit in_x in_t hx rfl ht rfl y x⟩⟩
  intro i hi
  have h9 : in_x.length = 9 := rfl
  have h9t : in_t.length = 9 := rfl
  have hix : i < in_x.length := by omega
  have hit : i < in_t.length := by omega
  have := getD_of_reverse_eq hx hix
  have := getD_of_reverse_eq ht hit
  simp only [h9, h9t] at *
  constructor <;> (symm; assumption)


/-! ## Normalisation -/

theorem tabulate_rows (rows cols : Nat) (f : Nat → Nat → ℚ) : (tabulate rows cols f).rows = rows := by
  simp [tabulate, Mat.rows]

theorem tabulate_cols (rows cols : Nat) (f : Nat → Nat → ℚ) : (tabulate rows cols f).cols = cols :=
  rfl

theorem map_rows {β γ : Type} (f : β → γ) (m : Mat β) : (m.map f).rows = m.rows := by
  simp [Mat.map, Mat.rows]

theorem map_cols {β γ : Type} (f : β → γ) (m : Mat β) : (m.map f).cols = m.cols := rfl

theorem matAdd_rows (a b : Mat ℚ) (h : a.rows = b.rows) : (matAdd a b).rows = a.rows := by
  unfold Mat.rows at h
  simp [matAdd, Mat.rows, h]

theorem filter2D_ok {src kernel : Mat ℚ} (hs : src.isEmpty = false) (hk : kernel.isEmpty = false) :
    filter2D src kernel = .ok (tabulate src.rows src.cols (filter2D_at src kernel)) := by
  simp [filter2D, hs, hk]

theorem gaborAccumulate_ok (x : Mat ℚ) (hx : x.isEmpty = false) :
    ∀ (kernels : List (Mat ℚ)) (gabor : Option (Mat ℚ)),
      (∀ kernel ∈ kernels, kernel.isEmpty = false) →
      (∀ g, gabor = some g → g.rows = x.rows ∧ g.cols = x.cols) →
      (kernels ≠ [] ∨ gabor ≠ none) →
      ∃ g, gaborAccumulate x kernels gabor = .ok (some g) ∧ g.rows = x.rows ∧ g.cols = x.cols
  | [], gabor, _, hg, hne => by
    cases gabor with
    | none => simp at hne
    | some g => exact ⟨g, rfl, hg g rfl⟩
  | kernel :: kernels, gabor, hk, hg, _ => by
    have hf := filter2D_ok hx (hk kernel (List.mem_cons_self _ _))
    have hk' : ∀ k ∈ kernels, k.isEmpty = false := fun k hk0 => hk k (List.mem_cons_of_mem _ hk0)
    cases gabor with
    | none =>
      simp only [gaborAccumulate, hf]
      apply gaborAccumulate_ok x hx kernels _ hk'
      · intro g hg0
        injection hg0 with hg0
        subst hg0
        exact ⟨by rw [map_rows, tabulate_rows], by rw [map_cols, tabulate_cols]⟩
      · exact Or.inr (by simp)
    | some g0 =>
      simp only [gaborAccumulate, hf]
      obtain ⟨hr0, hc0⟩ := hg g0 rfl
      apply gaborAccumulate_ok x hx kernels _ hk'
      · intro g hg0
        injection hg0 with hg0
        subst hg0
        refine ⟨?_, hc0⟩
        rw [matAdd_rows _ _ (by rw [hr0, map_rows, tabulate_rows]), hr0]
      · exact Or.inr (by simp)

theorem gabor_energy_slit_ok (fsqrt : ℚ → ℚ) {bank : List (Mat ℚ)} (hb : bank ≠ [])
    (hk : ∀ kernel ∈ bank, kernel.isEmpty = false) {x : Mat ℚ} (hx : x.isEmpty = false) :
    ∃ o, gabor_energy_slit fsqrt bank x = .ok o ∧ o.rows = x.rows ∧ o.cols = x.cols := by
  obtain ⟨g, hg, hr, hc⟩ := gaborAccumulate_ok x hx bank none hk (by simp) (Or.inl hb)
  refine ⟨convertTo_8UC1 (normalize (g.map fsqrt)), by simp [gabor_energy_slit, hg, powHalf], ?_, ?_⟩
  · rw [convertTo_8UC1, map_rows, normalize, map_rows, map_rows, hr]
  · rw [convertTo_8UC1, map_cols, normalize, map_cols, map_cols, hc]

theorem gabor_energy_slit_empty_bank (fsqrt : ℚ → ℚ) (x : Mat ℚ) :
    gabor_energy_slit fsqrt [] x = .error .badDepth := rfl

theorem forEachMat_forall₂ {β γ : Type} (body : β → Except CvError γ) (P : β → γ → Prop) :
    ∀ xs : List β, (∀ x ∈ xs, ∃ o, body x = .ok o ∧ P x o) →
      ∃ out, forEachMat body xs = .ok out ∧ List.Forall₂ P xs out
  | [], _ => ⟨[], rfl, List.Forall₂.nil⟩
  | x :: xs, h => by
    obtain ⟨o, ho, hP⟩ := h x (List.mem_cons_self _ _)
    obtain ⟨out, hout, hF⟩ := forEachMat_forall₂ body P xs
      (fun z hz => h z (List.mem_cons_of_mem _ hz))
    exact ⟨o :: out, by simp [forEachMat, ho, hout], List.Forall₂.cons hP hF⟩

theorem forEachMat_error_of {β γ : Type} (body : β → Except CvError γ) (e : CvError) :
    ∀ xs : List β, (∀ x ∈ xs, ∀ e', body x = .error e' → e' = e) →
      (∃ x ∈ xs, ∃ e', body x = .error e') → forEachMat body xs = .error e
  | [], _, h => by simp at h
  | x :: xs, hall, h => by
    cases hb : body x with
    | error e' =>
      have := hall x (List.mem_cons_self _ _) e' hb
      subst this
      simp [forEachMat, hb]
    | ok b =>
      have h2 : ∃ z ∈ xs, ∃ e', body z = .error e' := by
        obtain ⟨z, hz, e', he⟩ := h
        rcases List.mem_cons.1 hz with rfl | hz
        · rw [hb] at he; cases he
        · exact ⟨z, hz, e', he⟩
      have := forEachMat_error_of body e xs (fun z hz => hall z (List.mem_cons_of_mem _ hz)) h2
      simp [forEachMat, hb, this]

theorem get_energy_ok (fsqrt : ℚ → ℚ) (volumes : List (List (Mat ℚ))) (bank : List (Mat ℚ))
    (hb : bank ≠ []) (hk : ∀ kernel ∈ bank, kernel.isEmpty = false)
    (hx : ∀ volume ∈ volumes, ∀ x ∈ volume, x.isEmpty = false) :
    ∃ out, get_energy_of_gabor_in_spatio_temp fsqrt volumes bank = .ok out ∧
      List.Forall₂ (List.Forall₂ (fun x o => o.rows = x.rows ∧ o.cols = x.cols)) volumes out := by
  unfold get_energy_of_gabor_in_spatio_temp
  apply forEachMat_forall₂
  intro volume hv
  apply forEachMat_forall₂
  intro x hxv
  exact gabor_energy_slit_ok fsqrt hb hk (hx volume hv x hxv)

theorem get_energy_empty_bank (fsqrt : ℚ → ℚ) (volumes : List (List (Mat ℚ)))
    (h : ∃ volume ∈ volumes, volume ≠ []) :
    get_energy_of_gabor_in_spatio_temp fsqrt volumes [] = .error .badDepth := by
  unfold get_energy_of_gabor_in_spatio_temp
  apply forEachMat_error_of
  · intro volume _ e' he
    cases volume with
    | nil => simp [forEachMat] at he
    | cons x xs =>
      simp [forEachMat, gabor_energy_slit_empty_bank] at he
      exact he.symm
  · obtain ⟨volume, hv, hne⟩ := h
    refine ⟨volume, hv, .badDepth, ?_⟩
    cases volume with
    | nil => exact absurd rfl hne
    | cons x xs => simp [forEachMat, gabor_energy_slit_empty_bank]

/-- C6 (amended): with an empty kernel bank and at least one slit the function
fails, at the square root of the never-assigned accumulator, no convolution
having been performed.  With a non-empty bank no kernel size is compared with a
slit size: on slits and kernels that have samples the function returns one
energy map per slit, of the shape of the slit, also when the kernels are larger
than the slits. -/
theorem C6_gabor_energy_validation (fsqrt : ℚ → ℚ) (volumes : List (List (Mat ℚ)))
    (bank : List (Mat ℚ)) :
    ((∃ volume ∈ volumes, volume ≠ []) →
      get_energy_of_gabor_in_spatio_temp fsqrt volumes [] = .error .badDepth) ∧
    (bank ≠ [] → (∀ kernel ∈ bank, kernel.isEmpty = false) →
      (∀ volume ∈ volumes, ∀ x ∈ volume, x.isEmpty = false) →
      ∃ out, get_energy_of_gabor_in_spatio_temp fsqrt volumes bank = .ok out ∧
        List.Forall₂ (List.Forall₂ (fun x o => o.rows = x.rows ∧ o.cols = x.cols)) volumes out) :=
  ⟨get_energy_empty_bank fsqrt volumes, fun hb hk hx => get_energy_ok fsqrt volumes bank hb hk hx⟩

theorem C6_gabor_energy_validation_witness :
    (∃ volume ∈ [[graySlit]], volume ≠ []) ∧
    get_energy_of_gabor_in_spatio_temp ratSqrt [[graySlit]] [] = .error .badDepth ∧
    ∃ out, get_energy_of_gabor_in_spatio_temp ratSqrt [[graySlit]] [boxKernel9, boxKernel9]
        = .ok out ∧
      List.Forall₂ (List.Forall₂ (fun x o => o.rows = x.rows ∧ o.cols = x.cols))
        [[graySlit]] out :=
  ⟨⟨[graySlit], by simp, by simp⟩,
   (C6_gabor_energy_validation ratSqrt [[graySlit]] [boxKernel9, boxKernel9]).1
     ⟨[graySlit], by simp, by simp⟩,
   (C6_gabor_energy_validation ratSqrt [[graySlit]] [boxKernel9, boxKernel9]).2 (by simp)
     (by intro kernel hk; simp at hk; subst hk; rfl)
     (by intro volume hv x hx; simp at hv; subst hv; simp at hx; subst hx; rfl)⟩

/-- C6 as stated fails: the 9 x 9 kernels of `boxKernel9` are larger than the
slit of shape (3, 4) in both dimensions, and the function returns an energy
stack with one map of shape (3, 4). -/
theorem C6_counterexample :
    graySlit.rows = 3 ∧ graySlit.cols = 4 ∧ boxKernel9.rows = 9 ∧ boxKernel9.cols = 9 ∧
    ∃ o, get_energy_of_gabor_in_spatio_temp ratSqrt [[graySlit]] [boxKernel9, boxKernel9]
        = .ok [[o]] ∧ o.rows = 3 ∧ o.cols = 4 := by
  refine ⟨rfl, rfl, rfl, rfl, ?_⟩
  obtain ⟨out, hout, hF⟩ := get_energy_ok ratSqrt [[graySlit]] [boxKernel9, boxKernel9]
    (by simp) (by intro kernel hk; simp at hk; subst hk; rfl)
    (by intro volume hv x hx; simp at hv; subst hv; simp at hx; subst hx; rfl)
  cases hF with
  | cons h1 h2 =>
    cases h2
    cases h1 with
    | cons h3 h4 =>
      cases h4
      exact ⟨_, hout, h3.1, h3.2⟩

end SpatiotemporalFilters
